import Mathlib

/-!
Shallow embedding of the procsmaps library (src/src/lib.rs), a parser for
the Linux `/proc/[pid]/smaps` text format, together with theorems about
its behaviour.

Strings are modelled as Lean strings (lists of characters); `u64`/`usize`
values are natural numbers, reduced modulo `2 ^ 64` at the one spot where
the code performs an unchecked multiplication.  The header regular
expression is embedded as the deterministic matcher it denotes: every
repetition in the pattern is bounded by a character that cannot occur in
the repeated class, so the leftmost-greedy match is the maximal-munch one.
-/

/-- White space, as matched by Rust `str::trim` and the regex class. -/
def isWS (c : Char) : Bool :=
  c = ' ' || c = '\t' || c = '\n' || c = '\x0b' || c = '\x0c' || c = '\r' ||
  c = '\u0085' || c = '\u00a0' || c = '\u1680' ||
  c = '\u2000' || c = '\u2001' || c = '\u2002' || c = '\u2003' ||
  c = '\u2004' || c = '\u2005' || c = '\u2006' || c = '\u2007' ||
  c = '\u2008' || c = '\u2009' || c = '\u200a' ||
  c = '\u2028' || c = '\u2029' || c = '\u202f' || c = '\u205f' || c = '\u3000'

/-- Removal of leading and trailing white space, as in `str::trim`. -/
def trimChars (cs : List Char) : List Char :=
  ((cs.dropWhile isWS).reverse.dropWhile isWS).reverse

/-- Split on every occurrence of a separator character, keeping empty
pieces, as in Rust `str::split` with a one-character separator. -/
def splitOnChar (sep : Char) : List Char → List (List Char)
  | [] => [[]]
  | c :: cs =>
    if c = sep then [] :: splitOnChar sep cs
    else
      match splitOnChar sep cs with
      | [] => [[c]]
      | l :: ls => (c :: l) :: ls

structure Permissions where
  read : Bool := false
  write : Bool := false
  execute : Bool := false
  shared : Bool := false
  «private» : Bool := false
  deriving DecidableEq

/-- One character of the permission token, as in the loop body of
`Permissions::from_str`. -/
def Permissions.step (perms : Permissions) (c : Char) : Permissions :=
  if c = 'r' then { perms with read := true }
  else if c = 'w' then { perms with write := true }
  else if c = 'x' then { perms with execute := true }
  else if c = 's' then { perms with shared := true }
  else if c = 'p' then { perms with «private» := true }
  else perms

/-- Embeds `Permissions::from_str`. -/
def Permissions.from_str (s : String) : Permissions :=
  s.data.foldl Permissions.step {}

structure VmFlags where
  rd : Bool := false
  wr : Bool := false
  ex : Bool := false
  sh : Bool := false
  mr : Bool := false
  mw : Bool := false
  me : Bool := false
  ms : Bool := false
  gd : Bool := false
  pf : Bool := false
  dw : Bool := false
  lo : Bool := false
  io : Bool := false
  sr : Bool := false
  rr : Bool := false
  dc : Bool := false
  de : Bool := false
  ac : Bool := false
  nr : Bool := false
  ht : Bool := false
  sf : Bool := false
  nl : Bool := false
  ar : Bool := false
  wf : Bool := false
  dd : Bool := false
  sd : Bool := false
  mm : Bool := false
  hg : Bool := false
  nh : Bool := false
  mg : Bool := false
  um : Bool := false
  uw : Bool := false
  deriving DecidableEq

/-- One token of the flags line, as in the loop body of
`VmFlags::from_str` (a match on the 32 known mnemonics, ignoring any
other token). -/
def VmFlags.step (flags : VmFlags) (flag : String) : VmFlags :=
  if flag = "rd" then { flags with rd := true }
  else if flag = "wr" then { flags with wr := true }
  else if flag = "ex" then { flags with ex := true }
  else if flag = "sh" then { flags with sh := true }
  else if flag = "mr" then { flags with mr := true }
  else if flag = "mw" then { flags with mw := true }
  else if flag = "me" then { flags with me := true }
  else if flag = "ms" then { flags with ms := true }
  else if flag = "gd" then { flags with gd := true }
  else if flag = "pf" then { flags with pf := true }
  else if flag = "dw" then { flags with dw := true }
  else if flag = "lo" then { flags with lo := true }
  else if flag = "io" then { flags with io := true }
  else if flag = "sr" then { flags with sr := true }
  else if flag = "rr" then { flags with rr := true }
  else if flag = "dc" then { flags with dc := true }
  else if flag = "de" then { flags with de := true }
  else if flag = "ac" then { flags with ac := true }
  else if flag = "nr" then { flags with nr := true }
  else if flag = "ht" then { flags with ht := true }
  else if flag = "sf" then { flags with sf := true }
  else if flag = "nl" then { flags with nl := true }
  else if flag = "ar" then { flags with ar := true }
  else if flag = "wf" then { flags with wf := true }
  else if flag = "dd" then { flags with dd := true }
  else if flag = "sd" then { flags with sd := true }
  else if flag = "mm" then { flags with mm := true }
  else if flag = "hg" then { flags with hg := true }
  else if flag = "nh" then { flags with nh := true }
  else if flag = "mg" then { flags with mg := true }
  else if flag = "um" then { flags with um := true }
  else if flag = "uw" then { flags with uw := true }
  else flags

/-- The space-separated tokens of a flags line, as produced by
`s.split(" ")` in `VmFlags::from_str`. -/
def flagTokens (s : String) : List String :=
  (splitOnChar ' ' s.data).map (fun cs => String.mk cs)

/-- Embeds `VmFlags::from_str`. -/
def VmFlags.from_str (s : String) : VmFlags :=
  (flagTokens s).foldl VmFlags.step {}

structure Device where
  major : Nat := 0
  minor : Nat := 0
  deriving DecidableEq

structure Mapping where
  start : Nat := 0
  «end» : Nat := 0
  perms : Permissions := {}
  offset : Nat := 0
  device : Device := {}
  inode : Nat := 0
  pathname : Option String := none
  deriving DecidableEq

/-- The character class `[0-9a-f]` of the header pattern. -/
def isHexDigit (c : Char) : Bool :=
  ('0' ≤ c && c ≤ '9') || ('a' ≤ c && c ≤ 'f')

/-- The character class `[rwsxp-]` of the header pattern. -/
def isPermChar (c : Char) : Bool :=
  c = 'r' || c = 'w' || c = 's' || c = 'x' || c = 'p' || c = '-'

def hexDigitVal (c : Char) : Nat :=
  if c ≤ '9' then c.toNat - 48 else c.toNat - 87

def hexVal (cs : List Char) : Nat :=
  cs.foldl (fun acc c => acc * 16 + hexDigitVal c) 0

def decVal (cs : List Char) : Nat :=
  cs.foldl (fun acc c => acc * 10 + (c.toNat - 48)) 0

/-- Conversion of a hexadecimal capture, as in `u64::from_str_radix(_, 16)`
(and `usize::from_str_radix` on a 64-bit target): fails on overflow. -/
def toU64hex (cs : List Char) : Option Nat :=
  if hexVal cs < 2 ^ 64 then some (hexVal cs) else none

/-- Conversion of the decimal inode capture, as in `str::parse::<u64>` on a
string of decimal digits: fails on overflow. -/
def toU64dec (cs : List Char) : Option Nat :=
  if decVal cs < 2 ^ 64 then some (decVal cs) else none

structure HeaderCaps where
  startD : List Char
  endD : List Char
  permsD : List Char
  offsetD : List Char
  majorD : List Char
  minorD : List Char
  inodeD : List Char
  pathD : Option (List Char)
  deriving DecidableEq

/-- Embeds the anchored header pattern `RE` of the source,
`^(hex+)-(hex+)\s+([rwsxp-]+)\s+(hex+)\s+(hex+):(hex+)\s+(\d+)(?:\s+(.*))?$`,
as the deterministic maximal-munch matcher it denotes (each repeated class
is disjoint from the character that must follow it, so no backtracking can
produce a different split; `.` does not match a newline). -/
def matchHeader (cs : List Char) : Option HeaderCaps :=
  let startD := cs.takeWhile isHexDigit
  match cs.dropWhile isHexDigit with
  | '-' :: cs1 =>
    if startD.isEmpty then none else
    let endD := cs1.takeWhile isHexDigit
    let cs2 := cs1.dropWhile isHexDigit
    if endD.isEmpty then none else
    if (cs2.takeWhile isWS).isEmpty then none else
    let cs3 := cs2.dropWhile isWS
    let permsD := cs3.takeWhile isPermChar
    let cs4 := cs3.dropWhile isPermChar
    if permsD.isEmpty then none else
    if (cs4.takeWhile isWS).isEmpty then none else
    let cs5 := cs4.dropWhile isWS
    let offsetD := cs5.takeWhile isHexDigit
    let cs6 := cs5.dropWhile isHexDigit
    if offsetD.isEmpty then none else
    if (cs6.takeWhile isWS).isEmpty then none else
    let cs7 := cs6.dropWhile isWS
    let majorD := cs7.takeWhile isHexDigit
    match cs7.dropWhile isHexDigit with
    | ':' :: cs8 =>
      if majorD.isEmpty then none else
      let minorD := cs8.takeWhile isHexDigit
      let cs9 := cs8.dropWhile isHexDigit
      if minorD.isEmpty then none else
      if (cs9.takeWhile isWS).isEmpty then none else
      let cs10 := cs9.dropWhile isWS
      let inodeD := cs10.takeWhile Char.isDigit
      let cs11 := cs10.dropWhile Char.isDigit
      if inodeD.isEmpty then none else
      match cs11 with
      | [] => some ⟨startD, endD, permsD, offsetD, majorD, minorD, inodeD, none⟩
      | c :: _ =>
        if isWS c then
          let rest := cs11.dropWhile isWS
          if rest.contains '\n' then none
          else some ⟨startD, endD, permsD, offsetD, majorD, minorD, inodeD, some rest⟩
        else none
    | _ => none
  | _ => none

/-- The integer conversions of `Mapping::from_str`, applied to the
captures of a successful header match. -/
def headerOfCaps (caps : HeaderCaps) : Option Mapping := do
  let start ← toU64hex caps.startD
  let endv ← toU64hex caps.endD
  let perms := Permissions.from_str (String.mk caps.permsD)
  let offset ← toU64hex caps.offsetD
  let dev_major ← toU64hex caps.majorD
  let dev_minor ← toU64hex caps.minorD
  let inode ← toU64dec caps.inodeD
  some { start := start, «end» := endv, perms := perms, offset := offset,
         device := { major := dev_major, minor := dev_minor }, inode := inode,
         pathname := caps.pathD.map (fun cs => String.mk cs) }

/-- Embeds `Mapping::from_str`: trim the line, match it against the header
pattern, then convert every capture into its integer type. -/
def Mapping.from_str (s : String) : Option Mapping :=
  (matchHeader (trimChars s.data)).bind headerOfCaps

structure SMap where
  mapping : Mapping := {}
  size : Nat := 0
  kernel_page_size : Nat := 0
  mmu_page_size : Nat := 0
  rss : Nat := 0
  pss : Nat := 0
  pss_dirty : Nat := 0
  shared_clean : Nat := 0
  shared_dirty : Nat := 0
  private_clean : Nat := 0
  private_dirty : Nat := 0
  referenced : Nat := 0
  anonymous : Nat := 0
  ksm : Nat := 0
  lazy_free : Nat := 0
  anon_huge_pages : Nat := 0
  shmem_huge_pages : Nat := 0
  shmem_pmd_mapped : Nat := 0
  file_pmd_mapped : Nat := 0
  shared_hugetlb : Nat := 0
  private_hugetlb : Nat := 0
  swap : Nat := 0
  swap_pss : Nat := 0
  locked : Nat := 0
  thp_eligible : Nat := 0
  protection_key : Nat := 0
  vm_flags : VmFlags := {}
  deriving DecidableEq

/-- The `value.ends_with("kB")` test of `SMap::from_lines`. -/
def endsKB (cs : List Char) : Bool :=
  match cs.reverse with
  | 'B' :: 'k' :: _ => true
  | _ => false

/-- The optional leading plus sign accepted by `str::parse::<u64>`. -/
def stripPlus (cs : List Char) : List Char :=
  if cs.head? = some '+' then cs.tail else cs

/-- Embeds `str::parse::<u64>` on an arbitrary string: an optional leading
plus sign, then one or more decimal digits; fails on anything else and on
overflow. -/
def parseU64 (cs : List Char) : Option Nat :=
  if (stripPlus cs).isEmpty then none
  else if (stripPlus cs).all Char.isDigit then
    if decVal (stripPlus cs) < 2 ^ 64 then some (decVal (stripPlus cs)) else none
  else none

/-- The 25 keys recognized by the match in `SMap::from_lines`. -/
def recognizedKeys : List String :=
  ["AnonHugePages", "Anonymous", "FilePmdMapped", "KSM", "KernelPageSize",
   "LazyFree", "Locked", "MMUPageSize", "Private_Clean", "Private_Dirty",
   "Private_Hugetlb", "ProtectionKey", "Pss", "Pss_Dirty", "Referenced",
   "Rss", "Shared_Clean", "Shared_Dirty", "Shared_Hugetlb", "ShmemHugePages",
   "ShmemPmdMapped", "Size", "Swap", "SwapPss", "THPeligible"]

/-- The counter update performed by the key match in `SMap::from_lines`;
an unrecognized key leaves the record unchanged. -/
def applyKey (res : SMap) (key : String) (v : Nat) : SMap :=
  if key = "AnonHugePages" then { res with anon_huge_pages := v }
  else if key = "Anonymous" then { res with anonymous := v }
  else if key = "FilePmdMapped" then { res with file_pmd_mapped := v }
  else if key = "KSM" then { res with ksm := v }
  else if key = "KernelPageSize" then { res with kernel_page_size := v }
  else if key = "LazyFree" then { res with lazy_free := v }
  else if key = "Locked" then { res with locked := v }
  else if key = "MMUPageSize" then { res with mmu_page_size := v }
  else if key = "Private_Clean" then { res with private_clean := v }
  else if key = "Private_Dirty" then { res with private_dirty := v }
  else if key = "Private_Hugetlb" then { res with private_hugetlb := v }
  else if key = "ProtectionKey" then { res with protection_key := v }
  else if key = "Pss" then { res with pss := v }
  else if key = "Pss_Dirty" then { res with pss_dirty := v }
  else if key = "Referenced" then { res with referenced := v }
  else if key = "Rss" then { res with rss := v }
  else if key = "Shared_Clean" then { res with shared_clean := v }
  else if key = "Shared_Dirty" then { res with shared_dirty := v }
  else if key = "Shared_Hugetlb" then { res with shared_hugetlb := v }
  else if key = "ShmemHugePages" then { res with shmem_huge_pages := v }
  else if key = "ShmemPmdMapped" then { res with shmem_pmd_mapped := v }
  else if key = "Size" then { res with size := v }
  else if key = "Swap" then { res with swap := v }
  else if key = "SwapPss" then { res with swap_pss := v }
  else if key = "THPeligible" then { res with thp_eligible := v }
  else res

/-- The numeric text of a detail value, as produced by the trimming and
`kB`-stripping steps of `SMap::from_lines`: the value is trimmed, and when
it ends in `kB` the suffix is removed and the remainder trimmed again. -/
def stripValue (rawValue : List Char) : List Char :=
  if endsKB (trimChars rawValue) then
    trimChars ((trimChars rawValue).take ((trimChars rawValue).length - 2))
  else trimChars rawValue

/-- The multiplier applied to a detail value by `SMap::from_lines`: 1024
when the trimmed value ends in `kB`, 1 otherwise. -/
def multiplierOf (rawValue : List Char) : Nat :=
  if endsKB (trimChars rawValue) then 1024 else 1


/-- One iteration of the loop in `SMap::from_lines`.  A line that does not
split on `:` into exactly two parts is skipped (`continue`); a `VmFlags`
line is routed to the flag decoder with the raw remainder of the line;
otherwise the trimmed value has an optional `kB` suffix stripped (with the
multiplier set to 1024), must end in a decimal digit, and is parsed as a
`u64`.  The multiplication by the multiplier is unchecked in the source,
so it wraps modulo `2 ^ 64`. -/
def detailStep (res : SMap) (line : String) : Option SMap :=
  match splitOnChar ':' line.data with
  | [key, rawValue] =>
    if String.mk key = "VmFlags" then
      some { res with vm_flags := VmFlags.from_str (String.mk rawValue) }
    else
      match (stripValue rawValue).getLast? with
      | none => none
      | some last =>
        if !last.isDigit then none
        else
          match parseU64 (stripValue rawValue) with
          | none => none
          | some n => some (applyKey res (String.mk key) ((n * multiplierOf rawValue) % 2 ^ 64))
  | _ => some res

/-- The loop of `SMap::from_lines`, threading the record being built. -/
def SMap.from_linesAux (res : SMap) : List String → Option SMap
  | [] => some res
  | l :: ls =>
    match detailStep res l with
    | none => none
    | some res1 => SMap.from_linesAux res1 ls

/-- Embeds `SMap::from_lines`: start from the all-zero record holding the
given mapping and fold the detail lines into it. -/
def SMap.from_lines (mapping : Mapping) (lines : List String) : Option SMap :=
  SMap.from_linesAux { mapping := mapping } lines

/-- The line predicate used by the driver to delimit a detail block: a
line belongs to the current block when it does not parse as a header. -/
def notHeader (s : String) : Bool :=
  (Mapping.from_str s).isNone

/-- The driver loop of `from_str` on an explicit list of lines: parse a
header (aborting if the current line is not one), collect the following
run of non-header lines as the detail block, parse it, and continue with
the remaining lines. -/
def fromLinesList : List String → Option (List SMap)
  | [] => some []
  | l :: rest =>
    match Mapping.from_str l with
    | none => none
    | some m =>
      let block := rest.takeWhile notHeader
      let rest1 := rest.dropWhile notHeader
      match SMap.from_lines m block with
      | none => none
      | some s => (fromLinesList rest1).map (fun ss => s :: ss)
termination_by ls => ls.length
decreasing_by
  simp only [List.length_cons]
  exact Nat.lt_succ_of_le (List.dropWhile_sublist _).length_le

/-- The line split performed by `from_str`: `input.split("\n")`. -/
def linesOf (raw : String) : List String :=
  (splitOnChar '\n' raw.data).map (fun cs => String.mk cs)

/-- Embeds the top-level `from_str`. -/
def from_str (raw : String) : Option (List SMap) :=
  fromLinesList (linesOf raw)

/-- The 32 known flag mnemonics, in source order. -/
def knownMnemonics : List String :=
  ["rd", "wr", "ex", "sh", "mr", "mw", "me", "ms", "gd", "pf", "dw", "lo",
   "io", "sr", "rr", "dc", "de", "ac", "nr", "ht", "sf", "nl", "ar", "wf",
   "dd", "sd", "mm", "hg", "nh", "mg", "um", "uw"]

/-- Pointwise disjunction of two flag sets. -/
def VmFlags.or32 : VmFlags → VmFlags → VmFlags
  | ⟨a1, a2, a3, a4, a5, a6, a7, a8, a9, a10, a11, a12, a13, a14, a15, a16,
     a17, a18, a19, a20, a21, a22, a23, a24, a25, a26, a27, a28, a29, a30, a31, a32⟩,
    ⟨b1, b2, b3, b4, b5, b6, b7, b8, b9, b10, b11, b12, b13, b14, b15, b16,
     b17, b18, b19, b20, b21, b22, b23, b24, b25, b26, b27, b28, b29, b30, b31, b32⟩ =>
    ⟨a1 || b1, a2 || b2, a3 || b3, a4 || b4, a5 || b5, a6 || b6, a7 || b7, a8 || b8,
     a9 || b9, a10 || b10, a11 || b11, a12 || b12, a13 || b13, a14 || b14, a15 || b15,
     a16 || b16, a17 || b17, a18 || b18, a19 || b19, a20 || b20, a21 || b21, a22 || b22,
     a23 || b23, a24 || b24, a25 || b25, a26 || b26, a27 || b27, a28 || b28, a29 || b29,
     a30 || b30, a31 || b31, a32 || b32⟩

/-- The flag set determined by membership of each mnemonic in a token
list: the closed form of the decoder. -/
def VmFlags.ofMem (ts : List String) : VmFlags :=
  ⟨ts.contains "rd", ts.contains "wr", ts.contains "ex", ts.contains "sh",
   ts.contains "mr", ts.contains "mw", ts.contains "me", ts.contains "ms",
   ts.contains "gd", ts.contains "pf", ts.contains "dw", ts.contains "lo",
   ts.contains "io", ts.contains "sr", ts.contains "rr", ts.contains "dc",
   ts.contains "de", ts.contains "ac", ts.contains "nr", ts.contains "ht",
   ts.contains "sf", ts.contains "nl", ts.contains "ar", ts.contains "wf",
   ts.contains "dd", ts.contains "sd", ts.contains "mm", ts.contains "hg",
   ts.contains "nh", ts.contains "mg", ts.contains "um", ts.contains "uw"⟩

/-- A detail line that splits into exactly a key and a value, whose key is
not `VmFlags`, and whose value after trimming and optional `kB` stripping
does not end in a decimal digit (including the case of an empty value).
Such a line makes `SMap::from_lines` fail. -/
def badDetail (line : String) : Bool :=
  match splitOnChar ':' line.data with
  | [key, rawValue] =>
    decide (String.mk key ≠ "VmFlags") &&
    (match (stripValue rawValue).getLast? with
     | none => true
     | some last => !last.isDigit)
  | _ => false

/-- A detail line that splits into exactly a key and a value, whose key is
neither `VmFlags` nor any recognized key, and whose value passes the
numeric validation of `SMap::from_lines` (after trimming and optional
`kB` stripping it ends in a decimal digit and parses as a `u64`). -/
def unknownNumericOk (line : String) : Bool :=
  match splitOnChar ':' line.data with
  | [key, rawValue] =>
    decide (String.mk key ∉ recognizedKeys) &&
    decide (String.mk key ≠ "VmFlags") &&
    (match (stripValue rawValue).getLast? with
     | none => false
     | some last => last.isDigit && (parseU64 (stripValue rawValue)).isSome)
  | _ => false

theorem splitOnChar_ne_nil (sep : Char) (cs : List Char) : splitOnChar sep cs ≠ [] := by
  induction cs with
  | nil => simp [splitOnChar]
  | cons c cs ih =>
    rw [splitOnChar]
    split
    · simp
    · split
      · simp
      · simp

theorem splitOnChar_append_sep (sep : Char) (cs : List Char) :
    splitOnChar sep (cs ++ [sep]) = splitOnChar sep cs ++ [[]] := by
  induction cs with
  | nil => simp [splitOnChar]
  | cons c cs ih =>
    by_cases hc : c = sep
    · simp [splitOnChar, hc, ih]
    · obtain ⟨l, ls, h⟩ := List.exists_cons_of_ne_nil (splitOnChar_ne_nil sep cs)
      simp only [List.cons_append, splitOnChar, if_neg hc, List.append_eq]
      rw [ih, h]
      simp

theorem takeWhile_append_of_all {α : Type} (p : α → Bool) (xs ys : List α)
    (h : ∀ x ∈ xs, p x) : (xs ++ ys).takeWhile p = xs ++ ys.takeWhile p := by
  induction xs with
  | nil => rfl
  | cons a xs ih =>
    simp only [List.cons_append, List.takeWhile_cons, h a (by simp)]
    simp [ih (fun x hx => h x (by simp [hx]))]

theorem dropWhile_append_of_all {α : Type} (p : α → Bool) (xs ys : List α)
    (h : ∀ x ∈ xs, p x) : (xs ++ ys).dropWhile p = ys.dropWhile p := by
  induction xs with
  | nil => rfl
  | cons a xs ih =>
    simp only [List.cons_append, List.dropWhile_cons, h a (by simp)]
    simp [ih (fun x hx => h x (by simp [hx]))]

theorem takeWhile_append_of_not_all {α : Type} (p : α → Bool) (xs ys : List α)
    (h : ¬ ∀ x ∈ xs, p x) :
    (xs ++ ys).takeWhile p = xs.takeWhile p ∧
      (xs ++ ys).dropWhile p = xs.dropWhile p ++ ys := by
  induction xs with
  | nil => exact absurd (by simp) h
  | cons a xs ih =>
    by_cases pa : p a
    · have hxs : ¬ ∀ x ∈ xs, p x := by
        intro hall
        exact h (by intro x hx; rcases List.mem_cons.mp hx with rfl | hx2
                    exacts [pa, hall x hx2])
      obtain ⟨ht, hd⟩ := ih hxs
      constructor
      · simp [List.takeWhile_cons, pa, ht]
      · simp [List.dropWhile_cons, pa, hd]
    · constructor
      · simp only [List.cons_append, List.takeWhile_cons]
        simp [pa]
      · simp only [List.cons_append, List.dropWhile_cons]
        simp [pa]

theorem detailStep_skip (res : SMap) (line : String)
    (h : (splitOnChar ':' line.data).length ≠ 2) : detailStep res line = some res := by
  unfold detailStep
  split
  · rename_i key rawValue heq
    exact absurd (by rw [heq]; rfl : (splitOnChar ':' line.data).length = 2) h
  · rfl

theorem detailStep_empty (res : SMap) : detailStep res "" = some res :=
  detailStep_skip res "" (by decide)

theorem applyKey_unrecognized (res : SMap) (key : String) (v : Nat)
    (h : key ∉ recognizedKeys) : applyKey res key v = res := by
  simp only [recognizedKeys, List.mem_cons, List.not_mem_nil, or_false] at h
  push_neg at h
  obtain ⟨h1, h2, h3, h4, h5, h6, h7, h8, h9, h10, h11, h12, h13, h14, h15, h16,
    h17, h18, h19, h20, h21, h22, h23, h24, h25⟩ := h
  simp [applyKey, h1, h2, h3, h4, h5, h6, h7, h8, h9, h10, h11, h12, h13, h14, h15,
    h16, h17, h18, h19, h20, h21, h22, h23, h24, h25]

theorem detailStep_none_of_bad (res : SMap) (line : String)
    (h : badDetail line = true) : detailStep res line = none := by
  unfold detailStep
  split
  · rename_i key rawValue heq
    unfold badDetail at h
    simp only [heq] at h
    rw [Bool.and_eq_true] at h
    obtain ⟨h1, h2⟩ := h
    rw [if_neg (of_decide_eq_true h1)]
    cases hg : (stripValue rawValue).getLast? with
    | none => rfl
    | some last =>
      simp only [hg] at h2
      simp [h2]
  · rename_i hne
    unfold badDetail at h
    revert h
    split
    · rename_i key rawValue heq
      exact absurd heq (hne key rawValue)
    · intro h
      exact absurd h (by simp)

theorem detailStep_some_of_unknown (res : SMap) (line : String)
    (h : unknownNumericOk line = true) : detailStep res line = some res := by
  unfold detailStep
  split
  · rename_i key rawValue heq
    unfold unknownNumericOk at h
    simp only [heq] at h
    simp only [Bool.and_eq_true] at h
    obtain ⟨⟨h1, h2⟩, h3⟩ := h
    rw [if_neg (of_decide_eq_true h2)]
    cases hg : (stripValue rawValue).getLast? with
    | none => simp [hg] at h3
    | some last =>
      simp only [hg] at h3
      rw [Bool.and_eq_true] at h3
      obtain ⟨hdig, hps⟩ := h3
      obtain ⟨n, hn⟩ := Option.isSome_iff_exists.mp hps
      have happ : ∀ v : Nat, applyKey res (String.mk key) v = res :=
        fun v => applyKey_unrecognized res (String.mk key) v (of_decide_eq_true h1)
      simp [hdig, hn, happ]
  · rfl

theorem from_linesAux_insert_skip (line : String)
    (hline : ∀ res : SMap, detailStep res line = some res) (pre post : List String) :
    ∀ res : SMap,
      SMap.from_linesAux res (pre ++ line :: post) = SMap.from_linesAux res (pre ++ post) := by
  induction pre with
  | nil =>
    intro res
    simp only [List.nil_append, SMap.from_linesAux, hline res]
  | cons a pre ih =>
    intro res
    simp only [List.cons_append, SMap.from_linesAux]
    cases detailStep res a with
    | none => rfl
    | some res1 => exact ih res1

theorem from_linesAux_append_empty (ls : List String) :
    ∀ res : SMap, SMap.from_linesAux res (ls ++ [""]) = SMap.from_linesAux res ls := by
  induction ls with
  | nil =>
    intro res
    simp only [List.nil_append, SMap.from_linesAux, detailStep_empty res]
  | cons a ls ih =>
    intro res
    simp only [List.cons_append, SMap.from_linesAux]
    cases detailStep res a with
    | none => rfl
    | some res1 => exact ih res1

theorem from_linesAux_none_of_bad (line : String) (hbad : badDetail line = true)
    (ls : List String) : ∀ res : SMap, line ∈ ls → SMap.from_linesAux res ls = none := by
  induction ls with
  | nil => intro res hmem; exact absurd hmem (List.not_mem_nil line)
  | cons a ls ih =>
    intro res hmem
    rcases List.mem_cons.mp hmem with rfl | hmem2
    · simp only [SMap.from_linesAux, detailStep_none_of_bad res line hbad]
    · simp only [SMap.from_linesAux]
      cases detailStep res a with
      | none => rfl
      | some res1 => exact ih res1 hmem2

theorem fromLinesList_nil : fromLinesList [] = some [] := by
  rw [fromLinesList]

theorem fromLinesList_cons (l : String) (rest : List String) :
    fromLinesList (l :: rest) =
      match Mapping.from_str l with
      | none => none
      | some m =>
        match SMap.from_lines m (rest.takeWhile notHeader) with
        | none => none
        | some s => (fromLinesList (rest.dropWhile notHeader)).map (fun ss => s :: ss) := by
  rw [fromLinesList]

theorem notHeader_empty : notHeader "" = true := by decide

theorem fromLinesList_cons_none (l : String) (rest : List String)
    (h : Mapping.from_str l = none) : fromLinesList (l :: rest) = none := by
  rw [fromLinesList_cons, h]

theorem fromLinesList_cons_some (l : String) (rest : List String) (m : Mapping)
    (h : Mapping.from_str l = some m) :
    fromLinesList (l :: rest) =
      match SMap.from_lines m (rest.takeWhile notHeader) with
      | none => none
      | some s => (fromLinesList (rest.dropWhile notHeader)).map (fun ss => s :: ss) := by
  rw [fromLinesList_cons, h]

theorem fromLinesList_none_of_bad (line : String) (hbad : badDetail line = true)
    (hnh : Mapping.from_str line = none) :
    ∀ (n : Nat) (L : List String), L.length ≤ n → line ∈ L → fromLinesList L = none := by
  intro n
  induction n with
  | zero =>
    intro L hlen hmem
    have hL : L = [] := List.length_eq_zero.mp (Nat.le_zero.mp hlen)
    subst hL
    exact absurd hmem (List.not_mem_nil line)
  | succ n ih =>
    intro L hlen hmem
    cases L with
    | nil => exact absurd hmem (List.not_mem_nil line)
    | cons l rest =>
      cases hh : Mapping.from_str l with
      | none => exact fromLinesList_cons_none l rest hh
      | some m =>
        rw [fromLinesList_cons_some l rest m hh]
        have hmem2 : line ∈ rest := by
          rcases List.mem_cons.mp hmem with rfl | h2
          · rw [hh] at hnh
            exact absurd hnh (by simp)
          · exact h2
        have hsplit : rest.takeWhile notHeader ++ rest.dropWhile notHeader = rest :=
          List.takeWhile_append_dropWhile notHeader rest
        rcases List.mem_append.mp (by rw [hsplit]; exact hmem2) with hin | hin
        · have hnone : SMap.from_linesAux { mapping := m } (rest.takeWhile notHeader) = none :=
            from_linesAux_none_of_bad line hbad _ _ hin
          simp [SMap.from_lines, hnone]
        · have hlen2 : rest.length ≤ n := Nat.succ_le_succ_iff.mp (by simpa using hlen)
          have hrec : fromLinesList (rest.dropWhile notHeader) = none :=
            ih _ (le_trans (List.dropWhile_sublist _).length_le hlen2) hin
          cases hsm : SMap.from_lines m (rest.takeWhile notHeader) with
          | none => rfl
          | some s => simp [hrec]

theorem fromLinesList_append_empty_line :
    ∀ (n : Nat) (L : List String), L.length ≤ n → L ≠ [] →
      fromLinesList (L ++ [""]) = fromLinesList L := by
  intro n
  induction n with
  | zero =>
    intro L hlen hne
    exact absurd (List.length_eq_zero.mp (Nat.le_zero.mp hlen)) hne
  | succ n ih =>
    intro L hlen hne
    cases L with
    | nil => exact absurd rfl hne
    | cons l rest =>
      rw [List.cons_append]
      cases hh : Mapping.from_str l with
      | none => rw [fromLinesList_cons_none l _ hh, fromLinesList_cons_none l rest hh]
      | some m =>
        rw [fromLinesList_cons_some l _ m hh, fromLinesList_cons_some l rest m hh]
        by_cases hall : ∀ x ∈ rest, notHeader x
        · have ht : (rest ++ [""]).takeWhile notHeader = rest ++ [""] := by
            rw [takeWhile_append_of_all _ _ _ hall]
            simp [List.takeWhile_cons, notHeader_empty]
          have hd : (rest ++ [""]).dropWhile notHeader = [] := by
            rw [dropWhile_append_of_all _ _ _ hall]
            simp [List.dropWhile_cons, notHeader_empty]
          have htr : rest.takeWhile notHeader = rest := by
            have h0 := takeWhile_append_of_all notHeader rest [] hall
            simpa using h0
          have hdr : rest.dropWhile notHeader = [] := List.dropWhile_eq_nil_iff.mpr hall
          have hfl : SMap.from_lines m (rest ++ [""]) = SMap.from_lines m rest :=
            from_linesAux_append_empty rest { mapping := m }
          rw [ht, hd, htr, hdr, hfl]
        · obtain ⟨ht, hd⟩ := takeWhile_append_of_not_all notHeader rest [""] hall
          rw [ht, hd]
          have hne2 : rest.dropWhile notHeader ≠ [] := fun hnil =>
            hall (List.dropWhile_eq_nil_iff.mp hnil)
          have hlen2 : rest.length ≤ n := Nat.succ_le_succ_iff.mp (by simpa using hlen)
          have hrec := ih (rest.dropWhile notHeader)
            (le_trans (List.dropWhile_sublist _).length_le hlen2) hne2
          rw [hrec]

set_option maxHeartbeats 3200000 in
theorem VmFlags.step_or32 (f : VmFlags) (t : String) :
    VmFlags.step f t = VmFlags.or32 f (VmFlags.ofMem [t]) := by
  rcases f with ⟨f1, f2, f3, f4, f5, f6, f7, f8, f9, f10, f11, f12, f13, f14, f15, f16,
    f17, f18, f19, f20, f21, f22, f23, f24, f25, f26, f27, f28, f29, f30, f31, f32⟩
  by_cases h : t ∈ knownMnemonics
  · fin_cases h <;> simp [VmFlags.step, VmFlags.or32, VmFlags.ofMem]
  · have hne : ∀ m ∈ knownMnemonics, m ≠ t := fun m hm he => h (he ▸ hm)
    simp [VmFlags.step, VmFlags.or32, VmFlags.ofMem,
      hne "rd" (by decide),
      Ne.symm (hne "rd" (by decide)),
      hne "wr" (by decide),
      Ne.symm (hne "wr" (by decide)),
      hne "ex" (by decide),
      Ne.symm (hne "ex" (by decide)),
      hne "sh" (by decide),
      Ne.symm (hne "sh" (by decide)),
      hne "mr" (by decide),
      Ne.symm (hne "mr" (by decide)),
      hne "mw" (by decide),
      Ne.symm (hne "mw" (by decide)),
      hne "me" (by decide),
      Ne.symm (hne "me" (by decide)),
      hne "ms" (by decide),
      Ne.symm (hne "ms" (by decide)),
      hne "gd" (by decide),
      Ne.symm (hne "gd" (by decide)),
      hne "pf" (by decide),
      Ne.symm (hne "pf" (by decide)),
      hne "dw" (by decide),
      Ne.symm (hne "dw" (by decide)),
      hne "lo" (by decide),
      Ne.symm (hne "lo" (by decide)),
      hne "io" (by decide),
      Ne.symm (hne "io" (by decide)),
      hne "sr" (by decide),
      Ne.symm (hne "sr" (by decide)),
      hne "rr" (by decide),
      Ne.symm (hne "rr" (by decide)),
      hne "dc" (by decide),
      Ne.symm (hne "dc" (by decide)),
      hne "de" (by decide),
      Ne.symm (hne "de" (by decide)),
      hne "ac" (by decide),
      Ne.symm (hne "ac" (by decide)),
      hne "nr" (by decide),
      Ne.symm (hne "nr" (by decide)),
      hne "ht" (by decide),
      Ne.symm (hne "ht" (by decide)),
      hne "sf" (by decide),
      Ne.symm (hne "sf" (by decide)),
      hne "nl" (by decide),
      Ne.symm (hne "nl" (by decide)),
      hne "ar" (by decide),
      Ne.symm (hne "ar" (by decide)),
      hne "wf" (by decide),
      Ne.symm (hne "wf" (by decide)),
      hne "dd" (by decide),
      Ne.symm (hne "dd" (by decide)),
      hne "sd" (by decide),
      Ne.symm (hne "sd" (by decide)),
      hne "mm" (by decide),
      Ne.symm (hne "mm" (by decide)),
      hne "hg" (by decide),
      Ne.symm (hne "hg" (by decide)),
      hne "nh" (by decide),
      Ne.symm (hne "nh" (by decide)),
      hne "mg" (by decide),
      Ne.symm (hne "mg" (by decide)),
      hne "um" (by decide),
      Ne.symm (hne "um" (by decide)),
      hne "uw" (by decide),
      Ne.symm (hne "uw" (by decide))]

theorem VmFlags.or32_assoc (a b c : VmFlags) :
    VmFlags.or32 (VmFlags.or32 a b) c = VmFlags.or32 a (VmFlags.or32 b c) := by
  rcases a with ⟨_, _, _, _, _, _, _, _, _, _, _, _, _, _, _, _,
    _, _, _, _, _, _, _, _, _, _, _, _, _, _, _, _⟩
  rcases b with ⟨_, _, _, _, _, _, _, _, _, _, _, _, _, _, _, _,
    _, _, _, _, _, _, _, _, _, _, _, _, _, _, _, _⟩
  rcases c with ⟨_, _, _, _, _, _, _, _, _, _, _, _, _, _, _, _,
    _, _, _, _, _, _, _, _, _, _, _, _, _, _, _, _⟩
  simp [VmFlags.or32, Bool.or_assoc]

theorem VmFlags.or32_empty_left (x : VmFlags) : VmFlags.or32 {} x = x := by
  rcases x with ⟨_, _, _, _, _, _, _, _, _, _, _, _, _, _, _, _,
    _, _, _, _, _, _, _, _, _, _, _, _, _, _, _, _⟩
  rfl

theorem VmFlags.ofMem_cons (t : String) (ts : List String) :
    VmFlags.or32 (VmFlags.ofMem [t]) (VmFlags.ofMem ts) = VmFlags.ofMem (t :: ts) := by
  simp [VmFlags.or32, VmFlags.ofMem]

theorem VmFlags.foldl_step_ofMem (ts : List String) :
    ∀ f : VmFlags, ts.foldl VmFlags.step f = VmFlags.or32 f (VmFlags.ofMem ts) := by
  induction ts with
  | nil =>
    intro f
    rcases f with ⟨_, _, _, _, _, _, _, _, _, _, _, _, _, _, _, _,
      _, _, _, _, _, _, _, _, _, _, _, _, _, _, _, _⟩
    simp [VmFlags.or32, VmFlags.ofMem]
  | cons t ts ih =>
    intro f
    rw [List.foldl_cons, ih (VmFlags.step f t), VmFlags.step_or32 f t,
        VmFlags.or32_assoc, VmFlags.ofMem_cons]

theorem VmFlags.from_str_eq_ofMem (s : String) :
    VmFlags.from_str s = VmFlags.ofMem (flagTokens s) := by
  unfold VmFlags.from_str
  rw [VmFlags.foldl_step_ofMem (flagTokens s) {}, VmFlags.or32_empty_left]

theorem contains_congr {ts1 ts2 : List String} {m : String} (h : m ∈ ts1 ↔ m ∈ ts2) :
    ts1.contains m = ts2.contains m :=
  Bool.coe_iff_coe.mp (by rw [List.contains, List.contains, List.elem_iff, List.elem_iff]
                          exact h)

theorem contains_eq_false {l : List String} {a : String} (h : a ∉ l) :
    l.contains a = false := by
  cases hc : l.contains a with
  | false => rfl
  | true => exact absurd (List.elem_iff.mp hc) h

theorem ofMem_congr (ts1 ts2 : List String)
    (h : ∀ t ∈ knownMnemonics, (t ∈ ts1 ↔ t ∈ ts2)) :
    VmFlags.ofMem ts1 = VmFlags.ofMem ts2 := by
  unfold VmFlags.ofMem
  congr 1 <;> exact contains_congr (h _ (by decide))

theorem ofMem_all_unknown (ts : List String) (h : ∀ t ∈ ts, t ∉ knownMnemonics) :
    VmFlags.ofMem ts = {} := by
  have hn : ∀ m : String, m ∈ knownMnemonics → m ∉ ts := fun m hm hmem => h m hmem hm
  unfold VmFlags.ofMem
  rw [contains_eq_false (hn "rd" (by decide)), contains_eq_false (hn "wr" (by decide)),
      contains_eq_false (hn "ex" (by decide)), contains_eq_false (hn "sh" (by decide)),
      contains_eq_false (hn "mr" (by decide)), contains_eq_false (hn "mw" (by decide)),
      contains_eq_false (hn "me" (by decide)), contains_eq_false (hn "ms" (by decide)),
      contains_eq_false (hn "gd" (by decide)), contains_eq_false (hn "pf" (by decide)),
      contains_eq_false (hn "dw" (by decide)), contains_eq_false (hn "lo" (by decide)),
      contains_eq_false (hn "io" (by decide)), contains_eq_false (hn "sr" (by decide)),
      contains_eq_false (hn "rr" (by decide)), contains_eq_false (hn "dc" (by decide)),
      contains_eq_false (hn "de" (by decide)), contains_eq_false (hn "ac" (by decide)),
      contains_eq_false (hn "nr" (by decide)), contains_eq_false (hn "ht" (by decide)),
      contains_eq_false (hn "sf" (by decide)), contains_eq_false (hn "nl" (by decide)),
      contains_eq_false (hn "ar" (by decide)), contains_eq_false (hn "wf" (by decide)),
      contains_eq_false (hn "dd" (by decide)), contains_eq_false (hn "sd" (by decide)),
      contains_eq_false (hn "mm" (by decide)), contains_eq_false (hn "hg" (by decide)),
      contains_eq_false (hn "nh" (by decide)), contains_eq_false (hn "mg" (by decide)),
      contains_eq_false (hn "um" (by decide)), contains_eq_false (hn "uw" (by decide))]

theorem recognized_ne_vmflags (key : String) (h : key ∈ recognizedKeys) :
    key ≠ "VmFlags" := by
  fin_cases h <;> decide

theorem dropWhile_eq_self_of_prefix (p : Char → Bool) (a b : List Char)
    (hfix : a.dropWhile p = a) (hpre : b <+: a) : b.dropWhile p = b := by
  cases b with
  | nil => rfl
  | cons c b1 =>
    obtain ⟨t, ht⟩ := hpre
    have hpc : p c = false := by
      by_contra hpc
      rw [Bool.not_eq_false] at hpc
      rw [← ht] at hfix
      simp only [List.cons_append, List.dropWhile_cons, hpc, if_true] at hfix
      have hle : (List.dropWhile p (b1 ++ t)).length ≤ (b1 ++ t).length :=
        (List.dropWhile_sublist _).length_le
      rw [hfix] at hle
      simp at hle
    simp [List.dropWhile_cons, hpc]

theorem trimChars_no_leading (cs : List Char) :
    (trimChars cs).dropWhile isWS = trimChars cs := by
  have h1 : (cs.dropWhile isWS).dropWhile isWS = cs.dropWhile isWS :=
    List.dropWhile_idempotent isWS cs
  have hs : (cs.dropWhile isWS).reverse.dropWhile isWS <:+ (cs.dropWhile isWS).reverse :=
    List.dropWhile_suffix isWS
  have hp : ((cs.dropWhile isWS).reverse.dropWhile isWS).reverse <+: cs.dropWhile isWS := by
    have h2 := List.reverse_prefix.mpr hs
    rwa [List.reverse_reverse] at h2
  exact dropWhile_eq_self_of_prefix isWS (cs.dropWhile isWS) _ h1 hp

theorem trimChars_reverse_no_leading (cs : List Char) :
    (trimChars cs).reverse.dropWhile isWS = (trimChars cs).reverse := by
  unfold trimChars
  rw [List.reverse_reverse]
  exact List.dropWhile_idempotent isWS _

theorem trimChars_idem (cs : List Char) : trimChars (trimChars cs) = trimChars cs := by
  show (((trimChars cs).dropWhile isWS).reverse.dropWhile isWS).reverse = trimChars cs
  rw [trimChars_no_leading, trimChars_reverse_no_leading, List.reverse_reverse]

theorem trimChars_all_ws (cs : List Char) (h : ∀ c ∈ cs, isWS c) : trimChars cs = [] := by
  unfold trimChars
  rw [List.dropWhile_eq_nil_iff.mpr h]
  rfl

theorem endsKB_append_kB (pre : List Char) : endsKB (pre ++ ['k', 'B']) = true := by
  unfold endsKB
  rw [List.reverse_append]
  rfl

theorem take_sub_two (pre : List Char) :
    (pre ++ ['k', 'B']).take ((pre ++ ['k', 'B']).length - 2) = pre := by
  have h : (pre ++ ['k', 'B']).length - 2 = pre.length := by simp
  rw [h, List.take_left]

theorem stripValue_kB (rawValue pre : List Char) (h : trimChars rawValue = pre ++ ['k', 'B']) :
    stripValue rawValue = trimChars pre ∧ multiplierOf rawValue = 1024 := by
  unfold stripValue multiplierOf
  rw [h, endsKB_append_kB]
  simp [take_sub_two]

theorem stripValue_plain (rawValue : List Char) (h : endsKB (trimChars rawValue) = false) :
    stripValue rawValue = trimChars rawValue ∧ multiplierOf rawValue = 1 := by
  unfold stripValue multiplierOf
  rw [h]
  simp

theorem stripPlus_of_digits (ds : List Char) (hdig : ds.all Char.isDigit) :
    stripPlus ds = ds := by
  unfold stripPlus
  cases ds with
  | nil => rfl
  | cons c cs =>
    have hc : c.isDigit = true := List.all_eq_true.mp hdig c (by simp)
    rw [if_neg            ]
    simp only [List.head?_cons, Option.some.injEq]
    intro he
    subst he
    exact absurd hc (by decide)

theorem parseU64_digits (ds : List Char) (hne : ds ≠ []) (hdig : ds.all Char.isDigit)
    (hlt : decVal ds < 2 ^ 64) : parseU64 ds = some (decVal ds) := by
  unfold parseU64
  rw [stripPlus_of_digits ds hdig, if_neg (by simp [hne]), if_pos hdig, if_pos hlt]

theorem getLast_digit (ds : List Char) (hne : ds ≠ []) (hdig : ds.all Char.isDigit) :
    ∃ last, ds.getLast? = some last ∧ last.isDigit = true := by
  refine ⟨ds.getLast hne, List.getLast?_eq_getLast ds hne, ?_⟩
  exact List.all_eq_true.mp hdig _ (List.getLast_mem hne)

theorem detailStep_numeric (res : SMap) (line key : String) (rawValue : List Char)
    (hsplit : splitOnChar ':' line.data = [key.data, rawValue])
    (hkey : key ≠ "VmFlags")
    (ds : List Char) (hstrip : stripValue rawValue = ds)
    (hne : ds ≠ []) (hdig : ds.all Char.isDigit) (hlt : decVal ds < 2 ^ 64) :
    detailStep res line =
      some (applyKey res key ((decVal ds * multiplierOf rawValue) % 2 ^ 64)) := by
  unfold detailStep
  simp only [hsplit]
  rw [if_neg (by simpa using hkey)]
  rw [hstrip]
  obtain ⟨last, hlast, hldig⟩ := getLast_digit ds hne hdig
  rw [hlast]
  simp only [hldig, Bool.not_true, Bool.false_eq_true, if_false]
  rw [parseU64_digits ds hne hdig hlt]

/-- C1, counterexample to the claim as stated: a detail line with the
unrecognized key `Foo` and the non-numeric value `bar` makes
`SMap::from_lines` fail, so an unrecognized key is not ignored regardless
of its value. -/
theorem c1_unknown_key_counterexample :
    SMap.from_lines {} ["Foo: bar"] = none ∧
    ("Foo" : String) ∉ recognizedKeys ∧ ("Foo" : String) ≠ "VmFlags" := by
  constructor
  · decide
  · constructor
    · decide
    · decide

/-- C1 (amended): a detail line that splits into exactly a key and a value,
whose key is neither `VmFlags` nor a recognized key, is ignored by the
detail-block parser provided its value passes the numeric validation
(after trimming and optional `kB` stripping it ends in a decimal digit and
parses as a `u64`): the line affects no counter and the parse continues.
An unrecognized key with a value failing that validation aborts the
parse. -/
theorem c1_unknown_key_ignored (m : Mapping) (pre post : List String) (line : String)
    (h : unknownNumericOk line = true) :
    SMap.from_lines m (pre ++ line :: post) = SMap.from_lines m (pre ++ post) :=
  from_linesAux_insert_skip line (fun res => detailStep_some_of_unknown res line h) pre post _

/-- Witness for C1 at a concrete unrecognized key with a valid value. -/
theorem c1_unknown_key_ignored_witness :
    unknownNumericOk "SomeFutureKey: 12 kB" = true ∧
    SMap.from_lines {} ["SomeFutureKey: 12 kB", "Size: 2 kB"] =
      SMap.from_lines {} ["Size: 2 kB"] :=
  ⟨by decide, c1_unknown_key_ignored {} [] ["Size: 2 kB"] "SomeFutureKey: 12 kB" (by decide)⟩

/-- C2: a line anywhere in the input that splits into exactly a key and a
value, is not a header, and whose value fails the numeric validation
(after trimming and optional `kB` stripping it does not end in a decimal
digit) makes the whole top-level parse return no result. -/
theorem c2_bad_numeric_fatal (raw line : String)
    (hmem : line ∈ linesOf raw) (hbad : badDetail line = true)
    (hnh : Mapping.from_str line = none) : from_str raw = none :=
  fromLinesList_none_of_bad line hbad hnh (linesOf raw).length (linesOf raw) le_rfl hmem

/-- Witness for C2: a two-mapping input whose bad detail line sits in the
second mapping still parses to nothing, with no prefix returned. -/
theorem c2_bad_numeric_fatal_witness :
    ("Rss: x" : String) ∈ linesOf "0-1 r 0 0:0 0\nSize: 2 kB\n2-3 r 0 0:0 0\nRss: x" ∧
    badDetail "Rss: x" = true ∧ Mapping.from_str "Rss: x" = none ∧
    from_str "0-1 r 0 0:0 0\nSize: 2 kB\n2-3 r 0 0:0 0\nRss: x" = none :=
  ⟨by decide, by decide, by decide,
   c2_bad_numeric_fatal "0-1 r 0 0:0 0\nSize: 2 kB\n2-3 r 0 0:0 0\nRss: x" "Rss: x"
     (by decide) (by decide) (by decide)⟩

/-- C3: an input whose lines form two well-formed blocks (a parsing header
followed by non-header detail lines whose block parse succeeds, twice)
parses to exactly the two records, in input order, each built from its own
header and detail block. -/
theorem c3_two_blocks (raw : String) (hdr1 hdr2 : String) (d1 d2 : List String)
    (m1 m2 : Mapping) (s1 s2 : SMap)
    (hsplit : linesOf raw = hdr1 :: (d1 ++ hdr2 :: d2))
    (hh1 : Mapping.from_str hdr1 = some m1) (hh2 : Mapping.from_str hdr2 = some m2)
    (hd1 : ∀ l ∈ d1, Mapping.from_str l = none) (hd2 : ∀ l ∈ d2, Mapping.from_str l = none)
    (hs1 : SMap.from_lines m1 d1 = some s1) (hs2 : SMap.from_lines m2 d2 = some s2) :
    from_str raw = some [s1, s2] := by
  show fromLinesList (linesOf raw) = some [s1, s2]
  rw [hsplit, fromLinesList_cons_some _ _ m1 hh1]
  have ha1 : ∀ l ∈ d1, notHeader l := fun l hl => by simp [notHeader, hd1 l hl]
  have ha2 : ∀ l ∈ d2, notHeader l := fun l hl => by simp [notHeader, hd2 l hl]
  have hnh2 : notHeader hdr2 = false := by simp [notHeader, hh2]
  have ht1 : (d1 ++ hdr2 :: d2).takeWhile notHeader = d1 := by
    rw [takeWhile_append_of_all _ _ _ ha1]
    simp [List.takeWhile_cons, hnh2]
  have hdw1 : (d1 ++ hdr2 :: d2).dropWhile notHeader = hdr2 :: d2 := by
    rw [dropWhile_append_of_all _ _ _ ha1]
    simp [List.dropWhile_cons, hnh2]
  rw [ht1, hdw1, hs1, fromLinesList_cons_some _ _ m2 hh2]
  have ht2 : d2.takeWhile notHeader = d2 := by
    have h0 := takeWhile_append_of_all notHeader d2 [] ha2
    simpa using h0
  have hdw2 : d2.dropWhile notHeader = [] := List.dropWhile_eq_nil_iff.mpr ha2
  rw [ht2, hdw2, hs2, fromLinesList_nil]
  rfl

/-- Witness for C3 on a concrete two-block input. -/
theorem c3_two_blocks_witness :
    from_str "0-1 r 0 0:0 0\nSize: 2 kB\n2-3 r 0 0:0 0\nRss: 1" =
      some [{ mapping := { start := 0, «end» := 1, perms := { read := true } }, size := 2048 },
            { mapping := { start := 2, «end» := 3, perms := { read := true } }, rss := 1 }] :=
  c3_two_blocks "0-1 r 0 0:0 0\nSize: 2 kB\n2-3 r 0 0:0 0\nRss: 1"
    "0-1 r 0 0:0 0" "2-3 r 0 0:0 0" ["Size: 2 kB"] ["Rss: 1"]
    { start := 0, «end» := 1, perms := { read := true } }
    { start := 2, «end» := 3, perms := { read := true } }
    { mapping := { start := 0, «end» := 1, perms := { read := true } }, size := 2048 }
    { mapping := { start := 2, «end» := 3, perms := { read := true } }, rss := 1 }
    (by decide) (by decide) (by decide) (by decide) (by decide) (by decide) (by decide)

/-- C4: the empty input yields no result, and more generally any input
whose first line does not parse as a mapping header yields no result. -/
theorem c4_bad_first_line :
    from_str "" = none ∧
    ∀ (raw l : String) (rest : List String),
      linesOf raw = l :: rest → Mapping.from_str l = none → from_str raw = none := by
  constructor
  · show fromLinesList (linesOf "") = none
    rw [show linesOf "" = [""] by decide]
    exact fromLinesList_cons_none "" [] (by decide)
  · intro raw l rest hsplit hl
    show fromLinesList (linesOf raw) = none
    rw [hsplit]
    exact fromLinesList_cons_none l rest hl

/-- Witness for C4 at a concrete non-header first line. -/
theorem c4_bad_first_line_witness :
    linesOf "hello" = ["hello"] ∧ Mapping.from_str "hello" = none ∧
    from_str "hello" = none :=
  ⟨by decide, by decide, c4_bad_first_line.2 "hello" "hello" [] (by decide) (by decide)⟩

/-- C5, counterexample to the claim as stated: for the recognized key
`Size` with value `18446744073709551615 kB`, the unchecked `u64`
multiplication by 1024 wraps, so the stored counter is
`2 ^ 64 - 1024 = 18446744073709550592`, not 1024 times the numeric
prefix. -/
theorem c5_normalization_counterexample :
    SMap.from_lines {} ["Size: 18446744073709551615 kB"] =
      some { mapping := {}, size := 18446744073709550592 } ∧
    (18446744073709550592 : Nat) ≠ 18446744073709551615 * 1024 := by
  constructor
  · decide
  · decide

/-- C5 (amended): for a detail line with a recognized key and a numeric
value, a `kB`-suffixed value stores `(prefix * 1024) % 2 ^ 64` — which is
exactly `prefix * 1024` whenever that product fits in 64 bits — and a
value without the suffix stores the literal numeric value; a `Size` line
updates the size counter. -/
theorem c5_value_normalized :
    (∀ (res : SMap) (line key : String) (rawValue pre ds : List Char),
        splitOnChar ':' line.data = [key.data, rawValue] →
        key ∈ recognizedKeys →
        trimChars rawValue = pre ++ ['k', 'B'] →
        trimChars pre = ds → ds ≠ [] → ds.all Char.isDigit → decVal ds < 2 ^ 64 →
        detailStep res line = some (applyKey res key ((decVal ds * 1024) % 2 ^ 64))) ∧
    (∀ (res : SMap) (line key : String) (rawValue ds : List Char),
        splitOnChar ':' line.data = [key.data, rawValue] →
        key ∈ recognizedKeys →
        trimChars rawValue = ds → endsKB ds = false →
        ds ≠ [] → ds.all Char.isDigit → decVal ds < 2 ^ 64 →
        detailStep res line = some (applyKey res key (decVal ds))) ∧
    (∀ (res : SMap) (v : Nat), (applyKey res "Size" v).size = v) := by
  refine ⟨?_, ?_, ?_⟩
  · intro res line key rawValue pre ds hsplit hkey hkb htrim hne hdig hlt
    obtain ⟨hsv, hmul⟩ := stripValue_kB rawValue pre hkb
    have hd := detailStep_numeric res line key rawValue hsplit
      (recognized_ne_vmflags key hkey) ds (hsv.trans htrim) hne hdig hlt
    rw [hd, hmul]
  · intro res line key rawValue ds hsplit hkey htrim hnkb hne hdig hlt
    obtain ⟨hsv, hmul⟩ := stripValue_plain rawValue (by rw [htrim]; exact hnkb)
    have hd := detailStep_numeric res line key rawValue hsplit
      (recognized_ne_vmflags key hkey) ds (hsv.trans htrim) hne hdig hlt
    rw [hd, hmul, Nat.mul_one, Nat.mod_eq_of_lt hlt]
  · intro res v
    simp [applyKey]

/-- Witness for C5 at the concrete spec example `Size: 2996 kB` and at a
suffix-free `THPeligible: 1` line. -/
theorem c5_value_normalized_witness :
    detailStep { mapping := ({} : Mapping) } "Size: 2996 kB" =
      some (applyKey { mapping := ({} : Mapping) } "Size" ((2996 * 1024) % 2 ^ 64)) ∧
    detailStep { mapping := ({} : Mapping) } "THPeligible: 1" =
      some (applyKey { mapping := ({} : Mapping) } "THPeligible" 1) ∧
    (applyKey { mapping := ({} : Mapping) } "Size" ((2996 * 1024) % 2 ^ 64)).size = 3067904 :=
  ⟨c5_value_normalized.1 { mapping := ({} : Mapping) } "Size: 2996 kB" "Size"
      (String.data " 2996 kB") (String.data "2996 ") (String.data "2996")
      (by decide) (by decide) (by decide) (by decide) (by decide) (by decide) (by decide),
   c5_value_normalized.2.1 { mapping := ({} : Mapping) } "THPeligible: 1" "THPeligible"
      (String.data " 1") (String.data "1")
      (by decide) (by decide) (by decide) (by decide) (by decide) (by decide) (by decide),
   c5_value_normalized.2.2 { mapping := ({} : Mapping) } ((2996 * 1024) % 2 ^ 64)⟩

/-- C6: the VM-flag decoder is a total function whose result depends only
on which of the 32 known mnemonics occur among the tokens of the flags
line.  Two flags lines that agree on known-mnemonic membership decode
identically, so the result is invariant under permutation and duplication
of tokens and is never changed by inserting or removing unknown tokens
(including empty tokens); a line of only unknown tokens decodes to the
all-false set. -/
theorem c6_vmflags_decoder :
    (∀ s1 s2 : String,
        (∀ t ∈ knownMnemonics, (t ∈ flagTokens s1 ↔ t ∈ flagTokens s2)) →
        VmFlags.from_str s1 = VmFlags.from_str s2) ∧
    (∀ s : String, (∀ t ∈ flagTokens s, t ∉ knownMnemonics) → VmFlags.from_str s = {}) := by
  constructor
  · intro s1 s2 h
    rw [VmFlags.from_str_eq_ofMem, VmFlags.from_str_eq_ofMem]
    exact ofMem_congr _ _ h
  · intro s h
    rw [VmFlags.from_str_eq_ofMem]
    exact ofMem_all_unknown _ h

/-- Witness for C6: a permutation with a duplicate decodes identically; an
inserted unknown token and an inserted empty token (trailing space) change
nothing; an all-unknown line decodes to the empty flag set. -/
theorem c6_vmflags_decoder_witness :
    VmFlags.from_str "rd de uw" = VmFlags.from_str "uw rd de rd" ∧
    VmFlags.from_str "rd x" = VmFlags.from_str "rd" ∧
    VmFlags.from_str "rd " = VmFlags.from_str "rd" ∧
    VmFlags.from_str "a b c d" = {} :=
  ⟨c6_vmflags_decoder.1 "rd de uw" "uw rd de rd" (by decide),
   c6_vmflags_decoder.1 "rd x" "rd" (by decide),
   c6_vmflags_decoder.1 "rd " "rd" (by decide),
   c6_vmflags_decoder.2 "a b c d" (by decide)⟩

/-- C7: the header parser maps the two concrete example lines to exactly
the mappings the spec lists (addresses and offset in hexadecimal, device
`ff:10` giving major 255 and minor 16, pathname captured verbatim or
absent). -/
theorem c7_header_examples :
    Mapping.from_str "00e24000-011f7000 rw-p 00000000 00:00 0           [heap]" =
      some { start := 0x00e24000, «end» := 0x011f7000,
             perms := { read := true, write := true, «private» := true },
             offset := 0, device := { major := 0, minor := 0 }, inode := 0,
             pathname := some "[heap]" } ∧
    Mapping.from_str "35b1a21000-35b1a22000 rw-p abcd ff:10 0" =
      some { start := 0x35b1a21000, «end» := 0x35b1a22000,
             perms := { read := true, write := true, «private» := true },
             offset := 0xabcd, device := { major := 255, minor := 16 }, inode := 0,
             pathname := none } := by
  constructor
  · decide
  · decide

/-- C8: a detail line that does not split on the delimiter into exactly
two parts is skipped: it contributes nothing to the record and never makes
the detail-block parse fail. -/
theorem c8_unsplittable_skipped (m : Mapping) (pre post : List String) (line : String)
    (h : (splitOnChar ':' line.data).length ≠ 2) :
    SMap.from_lines m (pre ++ line :: post) = SMap.from_lines m (pre ++ post) :=
  from_linesAux_insert_skip line (fun res => detailStep_skip res line h) pre post _

/-- Witness for C8 at a line with no delimiter at all. -/
theorem c8_unsplittable_skipped_witness :
    (splitOnChar ':' ("no colon here" : String).data).length ≠ 2 ∧
    SMap.from_lines {} ["no colon here", "Size: 2 kB"] = SMap.from_lines {} ["Size: 2 kB"] :=
  ⟨by decide, c8_unsplittable_skipped {} [] ["Size: 2 kB"] "no colon here" (by decide)⟩

/-- C9: the header parser is invariant under surrounding white space — it
returns the same result on a string and on its trimmed form — and a
white-space-only line (like an empty one) yields no result. -/
theorem c9_trim_invariance (s : String) :
    Mapping.from_str (String.mk (trimChars s.data)) = Mapping.from_str s ∧
    ((∀ c ∈ s.data, isWS c) → Mapping.from_str s = none) := by
  constructor
  · show (matchHeader (trimChars (String.mk (trimChars s.data)).data)).bind headerOfCaps =
      (matchHeader (trimChars s.data)).bind headerOfCaps
    rw [show (String.mk (trimChars s.data)).data = trimChars s.data from rfl, trimChars_idem]
  · intro h
    show (matchHeader (trimChars s.data)).bind headerOfCaps = none
    rw [trimChars_all_ws s.data h]
    rfl

/-- Witness for C9 at a padded header line and a white-space-only line. -/
theorem c9_trim_invariance_witness :
    Mapping.from_str (String.mk (trimChars ("  0-1 r 0 0:0 0  " : String).data)) =
      Mapping.from_str "  0-1 r 0 0:0 0  " ∧
    (∀ c ∈ ("   " : String).data, isWS c) ∧ Mapping.from_str "   " = none :=
  ⟨(c9_trim_invariance "  0-1 r 0 0:0 0  ").1,
   by decide,
   (c9_trim_invariance "   ").2 (by decide)⟩

/-- C10: appending one newline to any input text does not change the
top-level parse result: the trailing empty line is absorbed into the last
detail block and skipped there. -/
theorem c10_trailing_newline (raw : String) : from_str (raw ++ "\n") = from_str raw := by
  show fromLinesList (linesOf (raw ++ "\n")) = fromLinesList (linesOf raw)
  have h1 : linesOf (raw ++ "\n") = linesOf raw ++ [""] := by
    unfold linesOf
    rw [String.data_append, show ("\n" : String).data = ['\n'] from rfl,
        splitOnChar_append_sep, List.map_append]
    rfl
  rw [h1]
  have hne : linesOf raw ≠ [] := by
    unfold linesOf
    simp only [ne_eq, List.map_eq_nil_iff]
    exact splitOnChar_ne_nil '\n' raw.data
  exact fromLinesList_append_empty_line (linesOf raw).length (linesOf raw) le_rfl hne
